import Mathlib

/-!
Verification of the ranking and recommendation core of a social
polling/voting service (Express + MongoDB).  The data model and the
operations below are a shallow embedding of the JavaScript source:
machine floats stored in documents are modelled as exact rationals,
JavaScript `Date.now()` millisecond timestamps as rationals, and the
transcendental `Math.exp` in the idealized scoring function as `Real.exp`.
-/

namespace VotingApp

/-- Interaction kinds recorded in a user's interaction log
(`type: { enum: ['view', 'vote', 'like', 'share'] }` in the user schema). -/
inductive InteractionKind : Type
  | view
  | vote
  | like
  | share
deriving DecidableEq, Repr

/-- One entry of a user's `interactions` array:
`{ postId, type, timestamp }`. -/
structure Interaction where
  postId : ℕ
  kind : InteractionKind
  timestamp : ℚ
deriving DecidableEq, Repr

/-- The user document: external identifier, interaction log, interest tags
(profile fields irrelevant to ranking are omitted). -/
structure User where
  userId : String
  interactions : List Interaction
  interests : List String
deriving DecidableEq, Repr

/-- One poll option of a post: `{ text, votes, voters }`. -/
structure PollOption where
  text : String
  votes : ℕ
  voters : List String
deriving DecidableEq, Repr

/-- The post document with the fields the ranking core reads and writes.
`createdAt` is a millisecond timestamp; the stored score fields are the
floats persisted by the trending job, modelled as rationals. -/
structure Post where
  id : ℕ
  tags : List String
  options : List PollOption
  totalVotes : ℕ
  likes : List String
  likesCount : ℤ
  shares : ℕ
  views : ℕ
  createdAt : ℚ
  engagementScore : ℚ
  trendingScore : ℚ
deriving DecidableEq, Repr

/-- `ageInHours` from `calculateEngagementScore`:
`(Date.now() - post.createdAt) / (1000 * 60 * 60)`. -/
def ageInHours (now : ℚ) (p : Post) : ℚ :=
  (now - p.createdAt) / (1000 * 60 * 60)

/-- The raw weighted counter blend of `calculateEngagementScore`:
`totalVotes * 1 + likesCount * 0.5 + shares * 2 + views * 0.1`. -/
def rawScore (p : Post) : ℚ :=
  (p.totalVotes : ℚ) * 1 + (p.likesCount : ℚ) * (1 / 2) +
    (p.shares : ℚ) * 2 + (p.views : ℚ) * (1 / 10)

/-- `calculateEngagementScore(post)` from the source, idealized over the
reals: `rawScore * Math.exp(-ageInHours / 48)` with `Math.exp` read as the
exact exponential. -/
noncomputable def calculateEngagementScore (now : ℚ) (p : Post) : ℝ :=
  (rawScore p : ℝ) * Real.exp (-(ageInHours now p : ℝ) / 48)

/-- A concrete post used to instantiate hypotheses of proved theorems. -/
def samplePost : Post :=
  ⟨1, ["sports"], [], 10, ["alice"], 1, 3, 50, 0, 0, 0⟩

/-- The persisted state: the `posts` and `users` collections. -/
structure DB where
  posts : List Post
  users : List User
deriving DecidableEq, Repr

/-- `Post.findById(id)`: first post whose id matches. -/
def findPost (posts : List Post) (pid : ℕ) : Option Post :=
  posts.find? (fun p => p.id == pid)

/-- `User.findOne({ userId })`: first user whose external id matches. -/
def findUser (users : List User) (uid : String) : Option User :=
  users.find? (fun u => u.userId == uid)

/-- Persisting a modified post document: replace the post with that id. -/
def updatePost (posts : List Post) (pid : ℕ) (p' : Post) : List Post :=
  posts.map (fun p => if p.id == pid then p' else p)

/-- Persisting a modified user document: replace the user with that id. -/
def updateUser (users : List User) (uid : String) (u' : User) : List User :=
  users.map (fun u => if u.userId == uid then u' else u)

/-- Error responses of the handlers. `internalError` stands for the 500
sent when the handler body throws (e.g. `optionIndex` out of bounds). -/
inductive HandlerError : Type
  | postNotFound
  | alreadyVoted
  | internalError
deriving DecidableEq, Repr

/-- `tags.forEach(tag => { if (!user.interests.includes(tag))
user.interests.push(tag) })` from the vote handler. -/
def addInterests (interests tags : List String) : List String :=
  tags.foldl (fun acc t => if acc.contains t then acc else acc ++ [t]) interests

/-- `POST /api/posts/:id/vote` with body `{ optionIndex, userId }`:
reject when the post is missing or the user already appears in any
option's voters; otherwise increment the chosen option and `totalVotes`,
then (only if the user record exists) append a `vote` interaction and union
the post's tags into the user's interests. -/
def voteHandler (db : DB) (pid : ℕ) (optionIndex : ℕ) (uid : String)
    (now : ℚ) : Except HandlerError DB :=
  match findPost db.posts pid with
  | none => .error .postNotFound
  | some post =>
    if post.options.any (fun o => o.voters.contains uid) then
      .error .alreadyVoted
    else if h : optionIndex < post.options.length then
      let o := post.options.get ⟨optionIndex, h⟩
      let post' : Post :=
        { post with
          options := post.options.set optionIndex
            { o with votes := o.votes + 1, voters := o.voters ++ [uid] },
          totalVotes := post.totalVotes + 1 }
      let db' : DB := { db with posts := updatePost db.posts pid post' }
      match findUser db.users uid with
      | none => .ok db'
      | some u =>
        let u' : User :=
          { u with
            interactions := u.interactions ++ [⟨pid, .vote, now⟩],
            interests := addInterests u.interests post.tags }
        .ok { db' with users := updateUser db'.users uid u' }
    else .error .internalError

/-- `POST /api/posts/:id/like` with body `{ userId }`: toggle the user's
presence in `likes` and mirror `likesCount`; only the like transition
appends a `like` interaction to an existing user record. -/
def likeHandler (db : DB) (pid : ℕ) (uid : String) (now : ℚ) :
    Except HandlerError DB :=
  match findPost db.posts pid with
  | none => .error .postNotFound
  | some post =>
    if post.likes.contains uid then
      let post' : Post :=
        { post with
          likes := post.likes.filter (fun x => x ≠ uid),
          likesCount := post.likesCount - 1 }
      .ok { db with posts := updatePost db.posts pid post' }
    else
      let post' : Post :=
        { post with
          likes := post.likes ++ [uid],
          likesCount := post.likesCount + 1 }
      let db' : DB := { db with posts := updatePost db.posts pid post' }
      match findUser db.users uid with
      | none => .ok db'
      | some u =>
        let u' : User :=
          { u with interactions := u.interactions ++ [⟨pid, .like, now⟩] }
        .ok { db' with users := updateUser db'.users uid u' }

/-- `POST /api/posts/:id/share`: increment `shares`; when a `userId` was
sent and a matching user record exists, append a `share` interaction. -/
def shareHandler (db : DB) (pid : ℕ) (uidOpt : Option String) (now : ℚ) :
    Except HandlerError DB :=
  match findPost db.posts pid with
  | none => .error .postNotFound
  | some post =>
    let post' : Post := { post with shares := post.shares + 1 }
    let db' : DB := { db with posts := updatePost db.posts pid post' }
    match uidOpt with
    | none => .ok db'
    | some uid =>
      match findUser db.users uid with
      | none => .ok db'
      | some u =>
        let u' : User :=
          { u with interactions := u.interactions ++ [⟨pid, .share, now⟩] }
        .ok { db' with users := updateUser db'.users uid u' }

/-- `GET /api/posts/:id` (view-on-read): increment `views`; when a
`userId` query parameter names an existing user record, append a `view`
interaction. -/
def viewHandler (db : DB) (pid : ℕ) (uidOpt : Option String) (now : ℚ) :
    Except HandlerError DB :=
  match findPost db.posts pid with
  | none => .error .postNotFound
  | some post =>
    let post' : Post := { post with views := post.views + 1 }
    let db' : DB := { db with posts := updatePost db.posts pid post' }
    match uidOpt with
    | none => .ok db'
    | some uid =>
      match findUser db.users uid with
      | none => .ok db'
      | some u =>
        let u' : User :=
          { u with interactions := u.interactions ++ [⟨pid, .view, now⟩] }
        .ok { db' with users := updateUser db'.users uid u' }

/-- One inbound request against the store. -/
inductive Event : Type
  | vote (pid optionIndex : ℕ) (uid : String) (now : ℚ)
  | like (pid : ℕ) (uid : String) (now : ℚ)
  | share (pid : ℕ) (uidOpt : Option String) (now : ℚ)
  | view (pid : ℕ) (uidOpt : Option String) (now : ℚ)
deriving DecidableEq, Repr

/-- Apply one request; an error response leaves the store unchanged
(every handler rejects before mutating). -/
def applyEvent (db : DB) : Event → DB
  | .vote pid i uid now => ((voteHandler db pid i uid now).toOption).getD db
  | .like pid uid now => ((likeHandler db pid uid now).toOption).getD db
  | .share pid uidOpt now => ((shareHandler db pid uidOpt now).toOption).getD db
  | .view pid uidOpt now => ((viewHandler db pid uidOpt now).toOption).getD db

/-- Apply a sequence of requests in order. -/
def applyEvents (db : DB) (es : List Event) : DB :=
  es.foldl applyEvent db

/-- Size of Mongo `$setIntersection: ['$tags', userInterests]`: the number
of distinct tags of the post that also occur among the interests. -/
def tagMatch (tags interests : List String) : ℕ :=
  (tags.dedup.filter (fun t => interests.contains t)).length

/-- The `relevanceScore` added by the feed pipeline:
`$size($setIntersection(tags, interests)) * 10 + trendingScore +
(Date.now() - createdAt) / 1000000000` (variant with the recency bonus). -/
def relevanceScore (interests : List String) (now : ℚ) (p : Post) : ℚ :=
  (tagMatch p.tags interests : ℚ) * 10 + p.trendingScore +
    (now - p.createdAt) / 1000000000

/-- The `relevanceScore` of the variant without the recency bonus:
`$size($setIntersection(tags, interests)) * 10 + trendingScore`. -/
def relevanceScoreNoRecency (interests : List String) (p : Post) : ℚ :=
  (tagMatch p.tags interests : ℚ) * 10 + p.trendingScore

/-- Mongo `$sort: { key: -1, createdAt: -1 }` as a relation: `a` comes
before `b` when its key is larger, or the keys tie and `a` is newer. -/
def rankedBefore (key : Post → ℚ) (a b : Post) : Prop :=
  key b < key a ∨ (key a = key b ∧ b.createdAt ≤ a.createdAt)

instance (key : Post → ℚ) : DecidableRel (rankedBefore key) := fun a b => by
  unfold rankedBefore
  infer_instance

instance (key : Post → ℚ) : IsTotal Post (rankedBefore key) := by
  constructor
  intro a b
  unfold rankedBefore
  rcases lt_trichotomy (key a) (key b) with h | h | h
  · exact Or.inr (Or.inl h)
  · rcases le_total b.createdAt a.createdAt with hc | hc
    · exact Or.inl (Or.inr ⟨h, hc⟩)
    · exact Or.inr (Or.inr ⟨h.symm, hc⟩)
  · exact Or.inl (Or.inl h)

instance (key : Post → ℚ) : IsTrans Post (rankedBefore key) := by
  constructor
  intro a b c hab hbc
  unfold rankedBefore at hab hbc ⊢
  rcases hab with h1 | ⟨h1, h1c⟩ <;> rcases hbc with h2 | ⟨h2, h2c⟩
  · exact Or.inl (h2.trans h1)
  · exact Or.inl (h2 ▸ h1)
  · exact Or.inl (by rw [h1]; exact h2)
  · exact Or.inr ⟨h1.trans h2, h2c.trans h1c⟩

/-- The post ids of every record in a user's interaction log
(`user.interactions.map(i => i.postId)`). -/
def interactedPostIds (u : User) : List ℕ :=
  u.interactions.map (fun i => i.postId)

/-- `getPersonalizedFeed(userId, limit, skip)`: for an unknown user fall
back to all posts by `trendingScore` desc then `createdAt` desc, windowed
by skip/limit; for a known user, keep only posts absent from the
interaction log, rank by `relevanceScore` desc then `createdAt` desc, and
window by skip/limit. -/
def getPersonalizedFeed (db : DB) (uid : String) (limit skip : ℕ)
    (now : ℚ) : List Post :=
  match findUser db.users uid with
  | none =>
    ((List.insertionSort (rankedBefore (fun p => p.trendingScore))
      db.posts).drop skip).take limit
  | some u =>
    let interacted := interactedPostIds u
    let eligible := db.posts.filter (fun p => !(interacted.contains p.id))
    ((List.insertionSort (rankedBefore (relevanceScore u.interests now))
      eligible).drop skip).take limit

/-- `GET /api/posts/trending?limit=`: all posts by `trendingScore` desc
then `createdAt` desc, truncated to `limit`; the endpoint reads no skip
parameter. -/
def trendingPosts (db : DB) (limit : ℕ) : List Post :=
  (List.insertionSort (rankedBefore (fun p => p.trendingScore))
    db.posts).take limit

/-- The score value the trending job computes and persists: the source's
`calculateEngagementScore` as executed on floats, with the machine
exponential abstracted as a parameter `mexp` (`Math.exp`). -/
def calculateEngagementScoreFloat (mexp : ℚ → ℚ) (now : ℚ) (p : Post) : ℚ :=
  rawScore p * mexp (-(ageInHours now p) / 48)

/-- `updateTrendingScores()`: walk the posts in order, recompute the score
and persist it into both `engagementScore` and `trendingScore`.  The loop
body has no error handling: when persisting a post fails (`failSet` on its
id, standing for a rejected `findByIdAndUpdate`), the awaited rejection
propagates, so that post and every later post keep their previous fields.
Returns the resulting store contents and whether the run aborted. -/
def updateTrendingScores (mexp : ℚ → ℚ) (now : ℚ) (failSet : ℕ → Bool) :
    List Post → List Post × Bool
  | [] => ([], false)
  | p :: rest =>
    if failSet p.id then (p :: rest, true)
    else
      let score := calculateEngagementScoreFloat mexp now p
      let p' : Post := { p with engagementScore := score, trendingScore := score }
      let r := updateTrendingScores mexp now failSet rest
      (p' :: r.1, r.2)

/-- Concrete store: `alice` has viewed post 1; `bob` has no record. -/
def post1 : Post :=
  ⟨1, ["sports", "tech"], [⟨"A", 0, []⟩, ⟨"B", 0, []⟩], 0, [], 0, 0, 0, 0, 0, 5⟩

/-- Second concrete post, unseen by `alice`. -/
def post2 : Post :=
  ⟨2, ["news"], [⟨"A", 0, []⟩], 0, [], 0, 0, 0, 1000, 0, 2⟩

/-- Concrete user with one `view` interaction on post 1. -/
def alice : User :=
  ⟨"alice", [⟨1, .view, 0⟩], ["sports", "news"]⟩

/-- Concrete store holding the two posts and the one user. -/
def sampleDB : DB :=
  ⟨[post1, post2], [alice]⟩

/-- A post whose persisted update will be made to fail in the job run. -/
def jobPostA : Post := ⟨1, [], [], 1, [], 0, 0, 0, 0, 0, 0⟩

/-- A post processed after `jobPostA` in the job's scan. -/
def jobPostB : Post := ⟨2, [], [], 1, [], 0, 0, 0, 0, 0, 0⟩

/-- Sum of the per-option vote counters of a post. -/
def sumVotes (opts : List PollOption) : ℕ :=
  (opts.map (fun o => o.votes)).sum

/-- The counter invariants of a post: `totalVotes` equals the sum of the
option counters, `likesCount` mirrors the length of `likes`, and `likes`
is duplicate-free (it is maintained as a set of user ids). -/
def PostInv (p : Post) : Prop :=
  p.totalVotes = sumVotes p.options ∧
    p.likesCount = (p.likes.length : ℤ) ∧ p.likes.Nodup

instance (p : Post) : Decidable (PostInv p) := by
  unfold PostInv
  infer_instance

/-- The concrete post with id 1 after the witness event sequence: one
vote by `alice` on option 0, a like, an unlike, and a view. -/
def post1AfterEvents : Post :=
  ⟨1, ["sports", "tech"], [⟨"A", 1, ["alice"]⟩, ⟨"B", 0, []⟩], 1, [], 0, 0, 1,
    0, 0, 5⟩

/-- The concrete store after `alice` votes for option 0 of post 1. -/
def dbAfterVote : DB :=
  ⟨[⟨1, ["sports", "tech"], [⟨"A", 1, ["alice"]⟩, ⟨"B", 0, []⟩], 1, [], 0, 0,
      0, 0, 0, 5⟩,
    post2],
    [⟨"alice", [⟨1, .view, 0⟩, ⟨1, .vote, 5⟩], ["sports", "news", "tech"]⟩]⟩

/-- C1: for every post and time, the score is
`(totalVotes·1 + likesCount·0.5 + shares·2 + views·0.1) · e^(−ageInHours/48)`
with `ageInHours` the elapsed time in seconds divided by 3600; a post with
`totalVotes = 10`, `likesCount = 4`, `shares = 3`, `views = 50` at age 24
hours scores `23 · e^(−1/2)`; and with all four counters zero the score
is 0. -/
theorem claim_C1_engagement_score_formula :
    (∀ (now : ℚ) (p : Post),
      calculateEngagementScore now p =
        ((p.totalVotes : ℝ) * 1 + (p.likesCount : ℝ) * 0.5 +
            (p.shares : ℝ) * 2 + (p.views : ℝ) * 0.1) *
          Real.exp (-((((now : ℝ) - (p.createdAt : ℝ)) / 1000 / 3600) / 48)))
    ∧ (∀ (t : ℚ) (i : ℕ) (tg : List String) (os : List PollOption)
        (lk : List String) (e tr : ℚ),
      calculateEngagementScore (t + 24 * 3600 * 1000)
          ⟨i, tg, os, 10, lk, 4, 3, 50, t, e, tr⟩ =
        23 * Real.exp (-(1 / 2)))
    ∧ (∀ (now t : ℚ) (i : ℕ) (tg : List String) (os : List PollOption)
        (lk : List String) (e tr : ℚ),
      calculateEngagementScore now ⟨i, tg, os, 0, lk, 0, 0, 0, t, e, tr⟩ = 0) := by
  refine ⟨?_, ?_, ?_⟩
  · intro now p
    unfold calculateEngagementScore rawScore ageInHours
    have harg : (-(((now - p.createdAt) / (1000 * 60 * 60) : ℚ) : ℝ) / 48) =
        (-((((now : ℝ) - (p.createdAt : ℝ)) / 1000 / 3600) / 48)) := by
      push_cast
      ring
    rw [harg]
    congr 1
    push_cast
    norm_num
  · intro t i tg os lk e tr
    unfold calculateEngagementScore rawScore ageInHours
    have harg : (-(((t + 24 * 3600 * 1000 - t) / (1000 * 60 * 60) : ℚ) : ℝ) / 48) =
        (-(1 / 2) : ℝ) := by
      push_cast
      ring
    rw [harg]
    norm_num
  · intro now t i tg os lk e tr
    unfold calculateEngagementScore rawScore
    norm_num

/-- The raw weighted blend is non-negative whenever `likesCount` is
(the other three counters are natural numbers). -/
lemma rawScore_nonneg {p : Post} (h : 0 ≤ p.likesCount) : 0 ≤ rawScore p := by
  unfold rawScore
  have h1 : (0 : ℚ) ≤ (p.likesCount : ℚ) := by exact_mod_cast h
  have h2 : (0 : ℚ) ≤ (p.totalVotes : ℚ) := by positivity
  have h3 : (0 : ℚ) ≤ (p.shares : ℚ) := by positivity
  have h4 : (0 : ℚ) ≤ (p.views : ℚ) := by positivity
  linarith

/-- C7: with fixed non-negative counters the score is non-increasing in the
current time, and with fixed age it is non-decreasing in each individual
counter (`totalVotes`, `likesCount`, `shares`, `views`). -/
theorem claim_C7_score_monotonicity :
    (∀ (p : Post) (t1 t2 : ℚ), 0 ≤ p.likesCount → t1 ≤ t2 →
      calculateEngagementScore t2 p ≤ calculateEngagementScore t1 p)
    ∧ (∀ (p : Post) (now : ℚ) (v1 v2 : ℕ), v1 ≤ v2 →
      calculateEngagementScore now { p with totalVotes := v1 } ≤
        calculateEngagementScore now { p with totalVotes := v2 })
    ∧ (∀ (p : Post) (now : ℚ) (c1 c2 : ℤ), c1 ≤ c2 →
      calculateEngagementScore now { p with likesCount := c1 } ≤
        calculateEngagementScore now { p with likesCount := c2 })
    ∧ (∀ (p : Post) (now : ℚ) (s1 s2 : ℕ), s1 ≤ s2 →
      calculateEngagementScore now { p with shares := s1 } ≤
        calculateEngagementScore now { p with shares := s2 })
    ∧ (∀ (p : Post) (now : ℚ) (w1 w2 : ℕ), w1 ≤ w2 →
      calculateEngagementScore now { p with views := w1 } ≤
        calculateEngagementScore now { p with views := w2 }) := by
  have key : ∀ (q q' : Post) (now : ℚ), rawScore q ≤ rawScore q' →
      q.createdAt = q'.createdAt →
      calculateEngagementScore now q ≤ calculateEngagementScore now q' := by
    intro q q' now hraw hage
    unfold calculateEngagementScore
    have hageq : ageInHours now q = ageInHours now q' := by
      unfold ageInHours
      rw [hage]
    rw [hageq]
    have hE : (0 : ℝ) ≤ Real.exp (-(ageInHours now q' : ℝ) / 48) :=
      (Real.exp_pos _).le
    have hraw' : (rawScore q : ℝ) ≤ (rawScore q' : ℝ) := by exact_mod_cast hraw
    exact mul_le_mul_of_nonneg_right hraw' hE
  refine ⟨?_, ?_, ?_, ?_, ?_⟩
  · intro p t1 t2 hl ht
    unfold calculateEngagementScore
    have hraw : (0 : ℝ) ≤ (rawScore p : ℝ) := by
      exact_mod_cast rawScore_nonneg hl
    apply mul_le_mul_of_nonneg_left _ hraw
    apply Real.exp_le_exp.2
    unfold ageInHours
    have : ((t1 - p.createdAt) / (1000 * 60 * 60) : ℚ) ≤
        ((t2 - p.createdAt) / (1000 * 60 * 60) : ℚ) := by
      apply div_le_div_of_nonneg_right _ (by norm_num)
      linarith
    have hc : (((t1 - p.createdAt) / (1000 * 60 * 60) : ℚ) : ℝ) ≤
        (((t2 - p.createdAt) / (1000 * 60 * 60) : ℚ) : ℝ) := by exact_mod_cast this
    linarith
  · intro p now v1 v2 h
    refine key _ _ now ?_ rfl
    unfold rawScore
    have : (v1 : ℚ) ≤ (v2 : ℚ) := by exact_mod_cast h
    simp only
    linarith
  · intro p now c1 c2 h
    refine key _ _ now ?_ rfl
    unfold rawScore
    have : (c1 : ℚ) ≤ (c2 : ℚ) := by exact_mod_cast h
    simp only
    linarith
  · intro p now s1 s2 h
    refine key _ _ now ?_ rfl
    unfold rawScore
    have : (s1 : ℚ) ≤ (s2 : ℚ) := by exact_mod_cast h
    simp only
    linarith
  · intro p now w1 w2 h
    refine key _ _ now ?_ rfl
    unfold rawScore
    have : (w1 : ℚ) ≤ (w2 : ℚ) := by exact_mod_cast h
    simp only
    linarith

/-- Witness for C7: the time-monotonicity part applied at a concrete post
with `likesCount = 1 ≥ 0` and times `0 ≤ 3600000`. -/
theorem claim_C7_score_monotonicity_witness :
    (0 : ℤ) ≤ samplePost.likesCount ∧ (0 : ℚ) ≤ 3600000 ∧
      calculateEngagementScore 3600000 samplePost ≤
        calculateEngagementScore 0 samplePost :=
  ⟨by decide, by norm_num,
    claim_C7_score_monotonicity.1 samplePost 0 3600000 (by decide) (by norm_num)⟩

/-- Membership in a skip/limit window implies membership in the list. -/
lemma mem_of_mem_window {l : List Post} {p : Post} {skip limit : ℕ}
    (h : p ∈ (l.drop skip).take limit) : p ∈ l :=
  List.mem_of_mem_drop (List.mem_of_mem_take h)

/-- C5: for every known user, the personalized feed never returns a post
whose id occurs as the `postId` of any record in the user's interaction
log, whatever the interaction kind. -/
theorem claim_C5_feed_excludes_interacted :
    ∀ (db : DB) (uid : String) (limit skip : ℕ) (now : ℚ) (u : User),
      findUser db.users uid = some u →
      ∀ p ∈ getPersonalizedFeed db uid limit skip now,
        p.id ∉ interactedPostIds u := by
  intro db uid limit skip now u hu p hp hmem
  unfold getPersonalizedFeed at hp
  rw [hu] at hp
  simp only at hp
  have h2 : p ∈ List.insertionSort (rankedBefore (relevanceScore u.interests now))
      (db.posts.filter (fun q => !((interactedPostIds u).contains q.id))) :=
    mem_of_mem_window hp
  rw [List.mem_insertionSort, List.mem_filter] at h2
  have := h2.2
  simp at this
  exact this hmem

/-- Witness for C5: in the concrete store, `alice` is found, post 2 is in
her feed, and its id is not among her interacted post ids. -/
theorem claim_C5_feed_excludes_interacted_witness :
    findUser sampleDB.users "alice" = some alice ∧
      post2 ∈ getPersonalizedFeed sampleDB "alice" 20 0 0 ∧
      post2.id ∉ interactedPostIds alice :=
  ⟨by decide, by decide,
    claim_C5_feed_excludes_interacted sampleDB "alice" 20 0 0 alice (by decide)
      post2 (by decide)⟩

/-- C2: for a known user the feed returns the eligible candidates (posts
absent from the interaction log), scored by
`10 · |tags ∩ interests| + trendingScore + (now − createdAt)/1e9`,
ordered by that score descending with ties broken by `createdAt`
descending, and windowed by skip/limit; the concrete scenario of interests
`["sports","news"]`, tags `["sports","tech"]` and `trendingScore = 5`
yields 15 without the recency term. -/
theorem claim_C2_relevance_scoring_and_order :
    (∀ (db : DB) (uid : String) (limit skip : ℕ) (now : ℚ) (u : User),
      findUser db.users uid = some u →
      getPersonalizedFeed db uid limit skip now =
        ((List.insertionSort (rankedBefore (relevanceScore u.interests now))
          (db.posts.filter (fun p =>
            !((interactedPostIds u).contains p.id)))).drop skip).take limit)
    ∧ (∀ (db : DB) (uid : String) (limit skip : ℕ) (now : ℚ) (u : User),
      findUser db.users uid = some u →
      List.Pairwise (rankedBefore (relevanceScore u.interests now))
        (getPersonalizedFeed db uid limit skip now))
    ∧ (∀ (i : ℕ) (os : List PollOption) (lk : List String)
        (tv : ℕ) (lc : ℤ) (sh vw : ℕ) (t e : ℚ),
      relevanceScoreNoRecency ["sports", "news"]
          ⟨i, ["sports", "tech"], os, tv, lk, lc, sh, vw, t, e, 5⟩ = 15)
    ∧ (∀ (i : ℕ) (os : List PollOption) (lk : List String)
        (tv : ℕ) (lc : ℤ) (sh vw : ℕ) (t e : ℚ),
      relevanceScore ["sports", "news"] t
          ⟨i, ["sports", "tech"], os, tv, lk, lc, sh, vw, t, e, 5⟩ = 15) := by
  refine ⟨?_, ?_, ?_, ?_⟩
  · intro db uid limit skip now u hu
    unfold getPersonalizedFeed
    rw [hu]
  · intro db uid limit skip now u hu
    unfold getPersonalizedFeed
    rw [hu]
    simp only
    have hs : List.Sorted (rankedBefore (relevanceScore u.interests now))
        (List.insertionSort (rankedBefore (relevanceScore u.interests now))
          (db.posts.filter (fun p => !((interactedPostIds u).contains p.id)))) :=
      List.sorted_insertionSort _ _
    exact hs.sublist ((List.take_sublist _ _).trans (List.drop_sublist _ _))
  · intro i os lk tv lc sh vw t e
    have h1 : tagMatch ["sports", "tech"] ["sports", "news"] = 1 := by decide
    unfold relevanceScoreNoRecency
    norm_num [h1]
  · intro i os lk tv lc sh vw t e
    have h1 : tagMatch ["sports", "tech"] ["sports", "news"] = 1 := by decide
    unfold relevanceScore
    norm_num [h1]

/-- Witness for C2: the ordering conjunct applied to the concrete store,
where `alice` resolves. -/
theorem claim_C2_relevance_scoring_and_order_witness :
    findUser sampleDB.users "alice" = some alice ∧
      List.Pairwise (rankedBefore (relevanceScore alice.interests 0))
        (getPersonalizedFeed sampleDB "alice" 20 0 0) :=
  ⟨by decide,
    claim_C2_relevance_scoring_and_order.2.1 sampleDB "alice" 20 0 0 alice
      (by decide)⟩

/-- C6 (amended): an unknown user identifier makes the feed fall back to
all posts by `trendingScore` descending then `createdAt` descending,
windowed by `[skip, skip + limit)`; this equals the trending endpoint's
output for the same limit when `skip = 0`.  The trending endpoint reads no
skip parameter, so for a positive skip the two outputs differ in general
(see the counterexample). -/
theorem claim_C6_unknown_user_trending_fallback :
    (∀ (db : DB) (uid : String) (limit skip : ℕ) (now : ℚ),
      findUser db.users uid = none →
      getPersonalizedFeed db uid limit skip now =
        ((List.insertionSort (rankedBefore (fun p => p.trendingScore))
          db.posts).drop skip).take limit)
    ∧ (∀ (db : DB) (uid : String) (limit : ℕ) (now : ℚ),
      findUser db.users uid = none →
      getPersonalizedFeed db uid limit 0 now = trendingPosts db limit) := by
  constructor
  · intro db uid limit skip now hu
    unfold getPersonalizedFeed
    rw [hu]
  · intro db uid limit now hu
    unfold getPersonalizedFeed trendingPosts
    rw [hu]
    simp

/-- Witness for C6: the fallback equality applied to the concrete store,
where `ghost` is unknown. -/
theorem claim_C6_unknown_user_trending_fallback_witness :
    findUser sampleDB.users "ghost" = none ∧
      getPersonalizedFeed sampleDB "ghost" 20 0 0 = trendingPosts sampleDB 20 :=
  ⟨by decide,
    claim_C6_unknown_user_trending_fallback.2 sampleDB "ghost" 20 0 (by decide)⟩

/-- Counterexample for C6 as stated: with skip 1 and limit 1 the fallback
feed for an unknown user returns the second-ranked post while the trending
endpoint, which has no skip parameter, returns the first-ranked one. -/
theorem claim_C6_counterexample :
    getPersonalizedFeed sampleDB "ghost" 1 1 0 ≠ trendingPosts sampleDB 1 := by
  decide

/-- Counterexample for C8 as stated: when persisting the first post fails,
the run aborts with both posts unchanged, although the second post's
stored `trendingScore` (0) differs from its recomputed score (1) — so the
remaining post is neither recomputed nor persisted in that run. -/
theorem claim_C8_counterexample :
    updateTrendingScores (fun _ => 1) 0 (fun i => i == 1)
        [jobPostA, jobPostB] = ([jobPostA, jobPostB], true)
    ∧ calculateEngagementScoreFloat (fun _ => 1) 0 jobPostB ≠
        jobPostB.trendingScore := by
  constructor
  · rfl
  · have h1 : calculateEngagementScoreFloat (fun _ => 1) 0 jobPostB = 1 := by
      simp [calculateEngagementScoreFloat, rawScore, jobPostB]
    have h2 : jobPostB.trendingScore = 0 := rfl
    rw [h1, h2]
    norm_num

/-- C8 (amended): the job's loop has no per-post error handling, so a
failure while persisting one post aborts the scan: every post before the
first failing one is recomputed and persisted, while the failing post and
all posts after it keep their previous scores; only when no post fails is
every post updated. -/
theorem claim_C8_job_failure_aborts_scan :
    (∀ (mexp : ℚ → ℚ) (now : ℚ) (failSet : ℕ → Bool) (posts : List Post),
      (∀ q ∈ posts, failSet q.id = false) →
      updateTrendingScores mexp now failSet posts =
        (posts.map (fun q =>
          let s := calculateEngagementScoreFloat mexp now q
          { q with engagementScore := s, trendingScore := s }), false))
    ∧ (∀ (mexp : ℚ → ℚ) (now : ℚ) (failSet : ℕ → Bool)
        (pre : List Post) (p : Post) (suf : List Post),
      (∀ q ∈ pre, failSet q.id = false) → failSet p.id = true →
      updateTrendingScores mexp now failSet (pre ++ p :: suf) =
        (pre.map (fun q =>
          let s := calculateEngagementScoreFloat mexp now q
          { q with engagementScore := s, trendingScore := s }) ++ p :: suf,
          true)) := by
  constructor
  · intro mexp now failSet posts h
    induction posts with
    | nil => rfl
    | cons p rest ih =>
      have hp : failSet p.id = false := h p (List.mem_cons_self _ _)
      have ih' := ih (fun q hq => h q (List.mem_cons_of_mem _ hq))
      simp only [updateTrendingScores, hp, Bool.false_eq_true, if_false, ih',
        List.map_cons]
  · intro mexp now failSet pre p suf hpre hp
    induction pre with
    | nil =>
      simp only [List.nil_append, updateTrendingScores, hp, if_true,
        List.map_nil]
    | cons q qs ih =>
      have hq : failSet q.id = false := hpre q (List.mem_cons_self _ _)
      have ih' := ih (fun r hr => hpre r (List.mem_cons_of_mem _ hr))
      simp only [List.cons_append, updateTrendingScores, hq,
        Bool.false_eq_true, if_false, List.append_eq, ih', List.map_cons]

/-- Witness for C8 (amended): a run over `[jobPostB, jobPostA]` where only
`jobPostA`'s persist fails updates `jobPostB` and stops at `jobPostA`. -/
theorem claim_C8_job_failure_aborts_scan_witness :
    (∀ q ∈ [jobPostB], (fun i => i == 1) q.id = false) ∧
      (fun i => i == 1) jobPostA.id = true ∧
      updateTrendingScores (fun _ => 1) 0 (fun i => i == 1)
          ([jobPostB] ++ jobPostA :: []) =
        ([jobPostB].map (fun q =>
          let s := calculateEngagementScoreFloat (fun _ => 1) 0 q
          { q with engagementScore := s, trendingScore := s }) ++
            jobPostA :: [], true) :=
  ⟨by decide, by decide,
    claim_C8_job_failure_aborts_scan.2 (fun _ => 1) 0 (fun i => i == 1)
      [jobPostB] jobPostA [] (by decide) (by decide)⟩

/-- Incrementing the vote counter of one option raises the option sum
by exactly one. -/
lemma sumVotes_set_inc :
    ∀ (l : List PollOption) (i : ℕ) (h : i < l.length) (vs : List String),
      sumVotes (l.set i
        (let o := l.get ⟨i, h⟩
         { o with votes := o.votes + 1, voters := vs })) = sumVotes l + 1 := by
  intro l
  induction l with
  | nil => intro i h vs; cases h
  | cons a as ih =>
    intro i h vs
    cases i with
    | zero => simp [sumVotes]; omega
    | succ j =>
      have hj : j < as.length := by simpa using h
      have := ih j hj vs
      simp [sumVotes, List.set] at this ⊢
      omega

/-- Removing one occurrence from a duplicate-free list by filtering
shortens it by exactly one. -/
lemma length_filter_ne {l : List String} {a : String}
    (hnd : l.Nodup) (ha : a ∈ l) :
    (l.filter (fun x => x ≠ a)).length + 1 = l.length := by
  induction l with
  | nil => cases ha
  | cons b bs ih =>
    have hbnotin : b ∉ bs := (List.nodup_cons.1 hnd).1
    have hndbs : bs.Nodup := (List.nodup_cons.1 hnd).2
    rcases List.mem_cons.1 ha with hb | hb
    · subst hb
      have hstep : (a :: bs).filter (fun x => x ≠ a) = bs := by
        simp [List.filter_cons]
        intro x hx hxa
        exact hbnotin (hxa ▸ hx)
      rw [hstep]
      simp
    · have hba : b ≠ a := by
        intro hbe
        exact hbnotin (hbe ▸ hb)
      have ihh := ih hndbs hb
      have hfc : (b :: bs).filter (fun x => x ≠ a) =
          b :: bs.filter (fun x => x ≠ a) := by
        simp [List.filter_cons, hba]
      rw [hfc]
      simp only [List.length_cons]
      omega

/-- A member of the updated collection is an original post or the
replacement. -/
lemma mem_updatePost {posts : List Post} {pid : ℕ} {p' q : Post}
    (h : q ∈ updatePost posts pid p') : q ∈ posts ∨ q = p' := by
  unfold updatePost at h
  rcases List.mem_map.1 h with ⟨r, hr, hq⟩
  by_cases hid : (r.id == pid) = true
  · right
    rw [← hq]
    simp [hid]
  · left
    rw [← hq]
    simp only [hid, if_false]
    exact hr

/-- A found post belongs to the collection. -/
lemma findPost_mem {posts : List Post} {pid : ℕ} {post : Post}
    (h : findPost posts pid = some post) : post ∈ posts :=
  List.mem_of_find?_eq_some h

/-- The successful-vote update preserves the counter invariants. -/
lemma postInv_vote {post : Post} (hinv : PostInv post) (i : ℕ)
    (h : i < post.options.length) (uid : String) :
    PostInv { post with
      options := post.options.set i
        (let o := post.options.get ⟨i, h⟩
         { o with votes := o.votes + 1, voters := o.voters ++ [uid] }),
      totalVotes := post.totalVotes + 1 } := by
  obtain ⟨h1, h2, h3⟩ := hinv
  refine ⟨?_, h2, h3⟩
  simp only
  rw [sumVotes_set_inc post.options i h, h1]

/-- The like transition preserves the counter invariants. -/
lemma postInv_like {post : Post} (hinv : PostInv post) (uid : String)
    (hnot : post.likes.contains uid = false) :
    PostInv { post with
      likes := post.likes ++ [uid],
      likesCount := post.likesCount + 1 } := by
  obtain ⟨h1, h2, h3⟩ := hinv
  have hmem : uid ∉ post.likes := by
    simpa using hnot
  refine ⟨h1, ?_, ?_⟩
  · simp only [List.length_append, List.length_cons, List.length_nil]
    rw [h2]
    push_cast
    ring
  · simp only
    rw [List.nodup_append]
    refine ⟨h3, List.nodup_singleton uid, ?_⟩
    intro x hx hxe
    have hxu : x = uid := by simpa using hxe
    exact hmem (hxu ▸ hx)

/-- The unlike transition preserves the counter invariants. -/
lemma postInv_unlike {post : Post} (hinv : PostInv post) (uid : String)
    (hin : post.likes.contains uid = true) :
    PostInv { post with
      likes := post.likes.filter (fun x => x ≠ uid),
      likesCount := post.likesCount - 1 } := by
  obtain ⟨h1, h2, h3⟩ := hinv
  have hmem : uid ∈ post.likes := by
    simpa using hin
  have hlen := length_filter_ne h3 hmem
  refine ⟨h1, ?_, List.Nodup.filter _ h3⟩
  simp only
  rw [h2]
  omega

/-- Shape of the vote handler when the post is missing. -/
lemma voteHandler_not_found {db : DB} {pid i : ℕ} {uid : String} {now : ℚ}
    (hfp : findPost db.posts pid = none) :
    voteHandler db pid i uid now = .error .postNotFound := by
  unfold voteHandler
  rw [hfp]

/-- Shape of the vote handler on a duplicate vote. -/
lemma voteHandler_already {db : DB} {pid i : ℕ} {uid : String} {now : ℚ}
    {post : Post} (hfp : findPost db.posts pid = some post)
    (hv : (post.options.any fun o => o.voters.contains uid) = true) :
    voteHandler db pid i uid now = .error .alreadyVoted := by
  unfold voteHandler
  rw [hfp]
  simp only [hv, if_true]

/-- Shape of the vote handler when `optionIndex` is out of bounds (the
JavaScript body throws, answered as a 500). -/
lemma voteHandler_bad_index {db : DB} {pid i : ℕ} {uid : String} {now : ℚ}
    {post : Post} (hfp : findPost db.posts pid = some post)
    (hv : (post.options.any fun o => o.voters.contains uid) = false)
    (hlen : ¬ i < post.options.length) :
    voteHandler db pid i uid now = .error .internalError := by
  unfold voteHandler
  simp only [hfp, hv, Bool.false_eq_true, if_false, dif_neg hlen]

/-- Shape of a successful vote by an identifier with no user record: only
the post collection changes. -/
lemma voteHandler_ok_unknown_user {db : DB} {pid i : ℕ} {uid : String}
    {now : ℚ} {post : Post} (hfp : findPost db.posts pid = some post)
    (hv : (post.options.any fun o => o.voters.contains uid) = false)
    (hlen : i < post.options.length)
    (hfu : findUser db.users uid = none) :
    voteHandler db pid i uid now = .ok
      ⟨updatePost db.posts pid
        { post with
          options := post.options.set i
            (let o := post.options.get ⟨i, hlen⟩
             { o with votes := o.votes + 1, voters := o.voters ++ [uid] }),
          totalVotes := post.totalVotes + 1 },
        db.users⟩ := by
  unfold voteHandler
  simp only [hfp, hv, Bool.false_eq_true, if_false, dif_pos hlen, hfu]

/-- Shape of a successful vote by a known user: the post is updated, and
the user gains one `vote` interaction and the post's tags as interests. -/
lemma voteHandler_ok_known_user {db : DB} {pid i : ℕ} {uid : String}
    {now : ℚ} {post : Post} {u : User}
    (hfp : findPost db.posts pid = some post)
    (hv : (post.options.any fun o => o.voters.contains uid) = false)
    (hlen : i < post.options.length)
    (hfu : findUser db.users uid = some u) :
    voteHandler db pid i uid now = .ok
      ⟨updatePost db.posts pid
        { post with
          options := post.options.set i
            (let o := post.options.get ⟨i, hlen⟩
             { o with votes := o.votes + 1, voters := o.voters ++ [uid] }),
          totalVotes := post.totalVotes + 1 },
        updateUser db.users uid
          { u with
            interactions := u.interactions ++ [⟨pid, .vote, now⟩],
            interests := addInterests u.interests post.tags }⟩ := by
  unfold voteHandler
  simp only [hfp, hv, Bool.false_eq_true, if_false, dif_pos hlen, hfu]

/-- Shape of the like handler when the post is missing. -/
lemma likeHandler_not_found {db : DB} {pid : ℕ} {uid : String} {now : ℚ}
    (hfp : findPost db.posts pid = none) :
    likeHandler db pid uid now = .error .postNotFound := by
  unfold likeHandler
  rw [hfp]

/-- Shape of the like handler on the on→off transition: the user is
removed from `likes` and no user document is touched. -/
lemma likeHandler_unlike {db : DB} {pid : ℕ} {uid : String} {now : ℚ}
    {post : Post} (hfp : findPost db.posts pid = some post)
    (hin : post.likes.contains uid = true) :
    likeHandler db pid uid now = .ok
      ⟨updatePost db.posts pid
        { post with
          likes := post.likes.filter (fun x => x ≠ uid),
          likesCount := post.likesCount - 1 },
        db.users⟩ := by
  unfold likeHandler
  rw [hfp]
  simp only [hin, if_true]

/-- Shape of the off→on like by an identifier with no user record. -/
lemma likeHandler_like_unknown_user {db : DB} {pid : ℕ} {uid : String}
    {now : ℚ} {post : Post} (hfp : findPost db.posts pid = some post)
    (hin : post.likes.contains uid = false)
    (hfu : findUser db.users uid = none) :
    likeHandler db pid uid now = .ok
      ⟨updatePost db.posts pid
        { post with
          likes := post.likes ++ [uid],
          likesCount := post.likesCount + 1 },
        db.users⟩ := by
  unfold likeHandler
  simp only [hfp, hin, Bool.false_eq_true, if_false, hfu]

/-- Shape of the off→on like by a known user: the user also gains one
`like` interaction. -/
lemma likeHandler_like_known_user {db : DB} {pid : ℕ} {uid : String}
    {now : ℚ} {post : Post} {u : User}
    (hfp : findPost db.posts pid = some post)
    (hin : post.likes.contains uid = false)
    (hfu : findUser db.users uid = some u) :
    likeHandler db pid uid now = .ok
      ⟨updatePost db.posts pid
        { post with
          likes := post.likes ++ [uid],
          likesCount := post.likesCount + 1 },
        updateUser db.users uid
          { u with interactions := u.interactions ++ [⟨pid, .like, now⟩] }⟩ := by
  unfold likeHandler
  simp only [hfp, hin, Bool.false_eq_true, if_false, hfu]

/-- Shape of the share handler when the post is missing. -/
lemma shareHandler_not_found {db : DB} {pid : ℕ} {uidOpt : Option String}
    {now : ℚ} (hfp : findPost db.posts pid = none) :
    shareHandler db pid uidOpt now = .error .postNotFound := by
  unfold shareHandler
  rw [hfp]

/-- Shape of a share when no user record matches the sent identifier (or
none was sent): only the post's `shares` counter changes. -/
lemma shareHandler_ok_unknown_user {db : DB} {pid : ℕ} {uid : String}
    {now : ℚ} {post : Post} (hfp : findPost db.posts pid = some post)
    (hfu : findUser db.users uid = none) :
    shareHandler db pid (some uid) now = .ok
      ⟨updatePost db.posts pid { post with shares := post.shares + 1 },
        db.users⟩ := by
  unfold shareHandler
  rw [hfp]
  simp only [hfu]

/-- Shape of a share by a known user: the user also gains one `share`
interaction. -/
lemma shareHandler_ok_known_user {db : DB} {pid : ℕ} {uid : String}
    {now : ℚ} {post : Post} {u : User}
    (hfp : findPost db.posts pid = some post)
    (hfu : findUser db.users uid = some u) :
    shareHandler db pid (some uid) now = .ok
      ⟨updatePost db.posts pid { post with shares := post.shares + 1 },
        updateUser db.users uid
          { u with interactions := u.interactions ++ [⟨pid, .share, now⟩] }⟩ := by
  unfold shareHandler
  rw [hfp]
  simp only [hfu]

/-- Shape of the view handler when the post is missing. -/
lemma viewHandler_not_found {db : DB} {pid : ℕ} {uidOpt : Option String}
    {now : ℚ} (hfp : findPost db.posts pid = none) :
    viewHandler db pid uidOpt now = .error .postNotFound := by
  unfold viewHandler
  rw [hfp]

/-- Shape of a view when no user record matches the sent identifier: only
the post's `views` counter changes. -/
lemma viewHandler_ok_unknown_user {db : DB} {pid : ℕ} {uid : String}
    {now : ℚ} {post : Post} (hfp : findPost db.posts pid = some post)
    (hfu : findUser db.users uid = none) :
    viewHandler db pid (some uid) now = .ok
      ⟨updatePost db.posts pid { post with views := post.views + 1 },
        db.users⟩ := by
  unfold viewHandler
  rw [hfp]
  simp only [hfu]

/-- Shape of a view by a known user: the user also gains one `view`
interaction. -/
lemma viewHandler_ok_known_user {db : DB} {pid : ℕ} {uid : String}
    {now : ℚ} {post : Post} {u : User}
    (hfp : findPost db.posts pid = some post)
    (hfu : findUser db.users uid = some u) :
    viewHandler db pid (some uid) now = .ok
      ⟨updatePost db.posts pid { post with views := post.views + 1 },
        updateUser db.users uid
          { u with interactions := u.interactions ++ [⟨pid, .view, now⟩] }⟩ := by
  unfold viewHandler
  rw [hfp]
  simp only [hfu]

/-- Shape of a share with no identifier in the body. -/
lemma shareHandler_ok_no_uid {db : DB} {pid : ℕ} {now : ℚ} {post : Post}
    (hfp : findPost db.posts pid = some post) :
    shareHandler db pid none now = .ok
      ⟨updatePost db.posts pid { post with shares := post.shares + 1 },
        db.users⟩ := by
  unfold shareHandler
  rw [hfp]

/-- Shape of a view with no identifier in the query. -/
lemma viewHandler_ok_no_uid {db : DB} {pid : ℕ} {now : ℚ} {post : Post}
    (hfp : findPost db.posts pid = some post) :
    viewHandler db pid none now = .ok
      ⟨updatePost db.posts pid { post with views := post.views + 1 },
        db.users⟩ := by
  unfold viewHandler
  rw [hfp]

/-- Every handler maps a store whose posts satisfy the invariants to a
store whose posts still do. -/
lemma applyEvent_preserves_inv {db : DB}
    (hdb : ∀ p ∈ db.posts, PostInv p) (e : Event) :
    ∀ p ∈ (applyEvent db e).posts, PostInv p := by
  have step : ∀ (posts : List Post) (pid : ℕ) (post p' : Post),
      findPost db.posts pid = some post → PostInv p' →
      db.posts = posts →
      ∀ q ∈ updatePost posts pid p', PostInv q := by
    intro posts pid post p' hfp hp' hpp q hq
    rcases mem_updatePost hq with hm | he
    · exact hdb q (hpp ▸ hm)
    · exact he ▸ hp'
  cases e with
  | vote pid i uid now =>
    intro q hq
    simp only [applyEvent] at hq
    cases hfp : findPost db.posts pid with
    | none =>
      rw [voteHandler_not_found hfp] at hq
      exact hdb q hq
    | some post =>
      by_cases hvoted : (post.options.any fun o => o.voters.contains uid) = true
      · rw [voteHandler_already hfp hvoted] at hq
        exact hdb q hq
      · have hv : (post.options.any fun o => o.voters.contains uid) = false := by
          simpa using hvoted
        by_cases hlen : i < post.options.length
        · have hinv' := postInv_vote (hdb post (findPost_mem hfp)) i hlen uid
          cases hfu : findUser db.users uid with
          | none =>
            rw [voteHandler_ok_unknown_user hfp hv hlen hfu] at hq
            exact step db.posts pid post _ hfp hinv' rfl q hq
          | some u =>
            rw [voteHandler_ok_known_user hfp hv hlen hfu] at hq
            exact step db.posts pid post _ hfp hinv' rfl q hq
        · rw [voteHandler_bad_index hfp hv hlen] at hq
          exact hdb q hq
  | like pid uid now =>
    intro q hq
    simp only [applyEvent] at hq
    cases hfp : findPost db.posts pid with
    | none =>
      rw [likeHandler_not_found hfp] at hq
      exact hdb q hq
    | some post =>
      have hpost := hdb post (findPost_mem hfp)
      by_cases hin : (post.likes.contains uid) = true
      · rw [likeHandler_unlike hfp hin] at hq
        exact step db.posts pid post _ hfp (postInv_unlike hpost uid hin) rfl q hq
      · have hin' : post.likes.contains uid = false := by simpa using hin
        have hinv' := postInv_like hpost uid hin'
        cases hfu : findUser db.users uid with
        | none =>
          rw [likeHandler_like_unknown_user hfp hin' hfu] at hq
          exact step db.posts pid post _ hfp hinv' rfl q hq
        | some u =>
          rw [likeHandler_like_known_user hfp hin' hfu] at hq
          exact step db.posts pid post _ hfp hinv' rfl q hq
  | share pid uidOpt now =>
    intro q hq
    simp only [applyEvent] at hq
    cases hfp : findPost db.posts pid with
    | none =>
      rw [shareHandler_not_found hfp] at hq
      exact hdb q hq
    | some post =>
      have hinv' : PostInv { post with shares := post.shares + 1 } :=
        hdb post (findPost_mem hfp)
      cases uidOpt with
      | none =>
        rw [shareHandler_ok_no_uid hfp] at hq
        exact step db.posts pid post _ hfp hinv' rfl q hq
      | some uid =>
        cases hfu : findUser db.users uid with
        | none =>
          rw [shareHandler_ok_unknown_user hfp hfu] at hq
          exact step db.posts pid post _ hfp hinv' rfl q hq
        | some u =>
          rw [shareHandler_ok_known_user hfp hfu] at hq
          exact step db.posts pid post _ hfp hinv' rfl q hq
  | view pid uidOpt now =>
    intro q hq
    simp only [applyEvent] at hq
    cases hfp : findPost db.posts pid with
    | none =>
      rw [viewHandler_not_found hfp] at hq
      exact hdb q hq
    | some post =>
      have hinv' : PostInv { post with views := post.views + 1 } :=
        hdb post (findPost_mem hfp)
      cases uidOpt with
      | none =>
        rw [viewHandler_ok_no_uid hfp] at hq
        exact step db.posts pid post _ hfp hinv' rfl q hq
      | some uid =>
        cases hfu : findUser db.users uid with
        | none =>
          rw [viewHandler_ok_unknown_user hfp hfu] at hq
          exact step db.posts pid post _ hfp hinv' rfl q hq
        | some u =>
          rw [viewHandler_ok_known_user hfp hfu] at hq
          exact step db.posts pid post _ hfp hinv' rfl q hq

/-- Invariant preservation over any request sequence. -/
lemma applyEvents_preserves_inv :
    ∀ (es : List Event) (db : DB), (∀ p ∈ db.posts, PostInv p) →
      ∀ p ∈ (applyEvents db es).posts, PostInv p := by
  intro es
  induction es with
  | nil =>
    intro db h
    simpa [applyEvents] using h
  | cons e rest ih =>
    intro db h
    have h1 := applyEvent_preserves_inv h e
    simpa [applyEvents, List.foldl_cons] using ih (applyEvent db e) h1

/-- C3: starting from posts satisfying the counter invariants, after any
sequence of vote, like and unlike (and share/view) requests every post
still has `totalVotes` equal to the sum of its option counters and
`likesCount` equal to the size of its `likes` set. -/
theorem claim_C3_counter_invariants :
    ∀ (db : DB) (es : List Event), (∀ p ∈ db.posts, PostInv p) →
      ∀ p ∈ (applyEvents db es).posts,
        p.totalVotes = sumVotes p.options ∧
          p.likesCount = (p.likes.dedup.length : ℤ) := by
  intro db es h p hp
  obtain ⟨h1, h2, h3⟩ := applyEvents_preserves_inv es db h p hp
  exact ⟨h1, by rw [h3.dedup]; exact h2⟩

/-- Witness for C3: the invariants hold for the post reached from the
concrete store by a vote, a like, an unlike and a view. -/
theorem claim_C3_counter_invariants_witness :
    (∀ p ∈ sampleDB.posts, PostInv p) ∧
      post1AfterEvents ∈ (applyEvents sampleDB
        [.vote 1 0 "alice" 5, .like 1 "alice" 6, .like 1 "alice" 7,
          .view 1 (some "alice") 8]).posts ∧
      post1AfterEvents.totalVotes = sumVotes post1AfterEvents.options ∧
        post1AfterEvents.likesCount =
          (post1AfterEvents.likes.dedup.length : ℤ) :=
  ⟨by decide, by decide,
    claim_C3_counter_invariants sampleDB
      [.vote 1 0 "alice" 5, .like 1 "alice" 6, .like 1 "alice" 7,
        .view 1 (some "alice") 8] (by decide) post1AfterEvents (by decide)⟩

/-- A found post carries the searched id. -/
lemma findPost_id {posts : List Post} {pid : ℕ} {post : Post}
    (h : findPost posts pid = some post) : post.id = pid := by
  have := List.find?_some h
  simpa using this

/-- A found user carries the searched identifier. -/
lemma findUser_id {users : List User} {uid : String} {u : User}
    (h : findUser users uid = some u) : u.userId = uid := by
  have := List.find?_some h
  simpa using this

/-- After persisting a replacement with the searched id, the lookup
returns the replacement. -/
lemma findPost_updatePost {posts : List Post} {pid : ℕ} {post p' : Post}
    (h : findPost posts pid = some post) (hid : p'.id = pid) :
    findPost (updatePost posts pid p') pid = some p' := by
  induction posts with
  | nil => simp [findPost] at h
  | cons q qs ih =>
    unfold updatePost
    simp only [List.map_cons]
    by_cases hq : (q.id == pid) = true
    · rw [if_pos hq]
      unfold findPost
      exact List.find?_cons_of_pos _ (by simp [hid])
    · rw [if_neg hq]
      unfold findPost at h ⊢
      have hstep1 : List.find? (fun p => p.id == pid) (q :: qs) =
          List.find? (fun p => p.id == pid) qs :=
        List.find?_cons_of_neg _ hq
      rw [hstep1] at h
      have hstep2 : List.find? (fun p => p.id == pid)
            (q :: List.map (fun p => if (p.id == pid) = true then p' else p) qs) =
          List.find? (fun p => p.id == pid)
            (List.map (fun p => if (p.id == pid) = true then p' else p) qs) :=
        List.find?_cons_of_neg _ hq
      rw [hstep2]
      exact ih h

/-- After persisting a replacement user document with the searched
identifier, the lookup returns the replacement. -/
lemma findUser_updateUser {users : List User} {uid : String} {u u' : User}
    (h : findUser users uid = some u) (hid : u'.userId = uid) :
    findUser (updateUser users uid u') uid = some u' := by
  induction users with
  | nil => simp [findUser] at h
  | cons q qs ih =>
    unfold updateUser
    simp only [List.map_cons]
    by_cases hq : (q.userId == uid) = true
    · rw [if_pos hq]
      unfold findUser
      exact List.find?_cons_of_pos _ (by simp [hid])
    · rw [if_neg hq]
      unfold findUser at h ⊢
      have hstep1 : List.find? (fun v => v.userId == uid) (q :: qs) =
          List.find? (fun v => v.userId == uid) qs :=
        List.find?_cons_of_neg _ hq
      rw [hstep1] at h
      have hstep2 : List.find? (fun v => v.userId == uid)
            (q :: List.map (fun v => if (v.userId == uid) = true then u' else v) qs) =
          List.find? (fun v => v.userId == uid)
            (List.map (fun v => if (v.userId == uid) = true then u' else v) qs) :=
        List.find?_cons_of_neg _ hq
      rw [hstep2]
      exact ih h

/-- After any successful vote, the acting identifier occurs in the voters
of some option of the stored post. -/
lemma voteHandler_ok_voted {db db' : DB} {pid i : ℕ} {uid : String}
    {now : ℚ} (hok : voteHandler db pid i uid now = .ok db') :
    ∃ post', findPost db'.posts pid = some post' ∧
      (post'.options.any fun o => o.voters.contains uid) = true := by
  cases hfp : findPost db.posts pid with
  | none =>
    rw [voteHandler_not_found hfp] at hok
    cases hok
  | some post =>
    by_cases hv : (post.options.any fun o => o.voters.contains uid) = true
    · rw [voteHandler_already hfp hv] at hok
      cases hok
    · have hv' : (post.options.any fun o => o.voters.contains uid) = false := by
        simpa using hv
      by_cases hlen : i < post.options.length
      · have hpid : post.id = pid := findPost_id hfp
        have hany : ∀ (vs : List PollOption), vs = post.options.set i
              (let o := post.options.get ⟨i, hlen⟩
               { o with votes := o.votes + 1, voters := o.voters ++ [uid] }) →
            (vs.any fun o => o.voters.contains uid) = true := by
          intro vs hvs
          apply List.any_eq_true.2
          have hlt : i < vs.length := by
            rw [hvs, List.length_set]
            exact hlen
          refine ⟨vs.get ⟨i, hlt⟩, List.get_mem vs i hlt, ?_⟩
          have : vs.get ⟨i, hlt⟩ =
              (let o := post.options.get ⟨i, hlen⟩
               { o with votes := o.votes + 1, voters := o.voters ++ [uid] }) := by
            rw [List.get_eq_getElem]
            subst hvs
            exact List.getElem_set_self (by simpa [List.length_set] using hlt)
          rw [this]
          simp
        cases hfu : findUser db.users uid with
        | none =>
          rw [voteHandler_ok_unknown_user hfp hv' hlen hfu] at hok
          injection hok with hdb
          subst hdb
          exact ⟨_, findPost_updatePost hfp (by simpa using hpid), hany _ rfl⟩
        | some u =>
          rw [voteHandler_ok_known_user hfp hv' hlen hfu] at hok
          injection hok with hdb
          subst hdb
          exact ⟨_, findPost_updatePost hfp (by simpa using hpid), hany _ rfl⟩
      · rw [voteHandler_bad_index hfp hv' hlen] at hok
        cases hok

/-- C4: a vote is rejected with the "already voted" error exactly when the
identifier occurs in the voters of any option of the post, and after any
successful vote every further vote attempt by the same identifier on that
post is rejected, so an identifier votes at most once per post. -/
theorem claim_C4_vote_once_per_post :
    (∀ (db : DB) (pid i : ℕ) (uid : String) (now : ℚ) (post : Post),
      findPost db.posts pid = some post →
      (voteHandler db pid i uid now = .error .alreadyVoted ↔
        ∃ o ∈ post.options, uid ∈ o.voters))
    ∧ (∀ (db db' : DB) (pid i : ℕ) (uid : String) (now : ℚ),
      voteHandler db pid i uid now = .ok db' →
      ∀ (j : ℕ) (t : ℚ),
        voteHandler db' pid j uid t = .error .alreadyVoted) := by
  constructor
  · intro db pid i uid now post hfp
    by_cases hv : (post.options.any fun o => o.voters.contains uid) = true
    · constructor
      · intro _
        rcases List.any_eq_true.1 hv with ⟨o, ho, hc⟩
        exact ⟨o, ho, by simpa using hc⟩
      · intro _
        exact voteHandler_already hfp hv
    · have hv' : (post.options.any fun o => o.voters.contains uid) = false := by
        simpa using hv
      constructor
      · intro heq
        exfalso
        by_cases hlen : i < post.options.length
        · cases hfu : findUser db.users uid with
          | none =>
            rw [voteHandler_ok_unknown_user hfp hv' hlen hfu] at heq
            cases heq
          | some u =>
            rw [voteHandler_ok_known_user hfp hv' hlen hfu] at heq
            cases heq
        · rw [voteHandler_bad_index hfp hv' hlen] at heq
          simp at heq
      · intro hex
        exfalso
        rcases hex with ⟨o, ho, hvo⟩
        have : (post.options.any fun o => o.voters.contains uid) = true :=
          List.any_eq_true.2 ⟨o, ho, by simpa using hvo⟩
        rw [hv'] at this
        cases this
  · intro db db' pid i uid now hok j t
    obtain ⟨post', hfind, hany⟩ := voteHandler_ok_voted hok
    exact voteHandler_already hfind hany

/-- Witness for C4: on the concrete store nobody has voted on post 1, and
the rejection condition is equivalent to (here: as false as) a voter
entry for `alice`. -/
theorem claim_C4_vote_once_per_post_witness :
    findPost sampleDB.posts 1 = some post1 ∧
      (voteHandler sampleDB 1 0 "alice" 5 = .error .alreadyVoted ↔
        ∃ o ∈ post1.options, "alice" ∈ o.voters) :=
  ⟨by decide,
    claim_C4_vote_once_per_post.1 sampleDB 1 0 "alice" 5 post1 (by decide)⟩

/-- C9: every successful vote, share and view by a known user appends
exactly one interaction record of the matching kind with the post
reference and timestamp; the like handler does so only on the off→on
transition, and unliking leaves the users collection untouched. -/
theorem claim_C9_interaction_append :
    (∀ (db db' : DB) (pid i : ℕ) (uid : String) (now : ℚ) (u : User),
      findUser db.users uid = some u →
      voteHandler db pid i uid now = .ok db' →
      ∃ u', findUser db'.users uid = some u' ∧
        u'.interactions = u.interactions ++ [⟨pid, .vote, now⟩])
    ∧ (∀ (db db' : DB) (pid : ℕ) (uid : String) (now : ℚ) (u : User),
      findUser db.users uid = some u →
      shareHandler db pid (some uid) now = .ok db' →
      ∃ u', findUser db'.users uid = some u' ∧
        u'.interactions = u.interactions ++ [⟨pid, .share, now⟩])
    ∧ (∀ (db db' : DB) (pid : ℕ) (uid : String) (now : ℚ) (u : User),
      findUser db.users uid = some u →
      viewHandler db pid (some uid) now = .ok db' →
      ∃ u', findUser db'.users uid = some u' ∧
        u'.interactions = u.interactions ++ [⟨pid, .view, now⟩])
    ∧ (∀ (db db' : DB) (pid : ℕ) (uid : String) (now : ℚ) (post : Post)
        (u : User),
      findPost db.posts pid = some post →
      findUser db.users uid = some u →
      post.likes.contains uid = false →
      likeHandler db pid uid now = .ok db' →
      ∃ u', findUser db'.users uid = some u' ∧
        u'.interactions = u.interactions ++ [⟨pid, .like, now⟩])
    ∧ (∀ (db db' : DB) (pid : ℕ) (uid : String) (now : ℚ) (post : Post),
      findPost db.posts pid = some post →
      post.likes.contains uid = true →
      likeHandler db pid uid now = .ok db' →
      db'.users = db.users) := by
  refine ⟨?_, ?_, ?_, ?_, ?_⟩
  · intro db db' pid i uid now u hu hok
    cases hfp : findPost db.posts pid with
    | none =>
      rw [voteHandler_not_found hfp] at hok
      cases hok
    | some post =>
      by_cases hv : (post.options.any fun o => o.voters.contains uid) = true
      · rw [voteHandler_already hfp hv] at hok
        cases hok
      · have hv' : (post.options.any fun o => o.voters.contains uid) = false := by
          simpa using hv
        by_cases hlen : i < post.options.length
        · rw [voteHandler_ok_known_user hfp hv' hlen hu] at hok
          injection hok with hdb
          subst hdb
          exact ⟨_, findUser_updateUser hu (by simpa using findUser_id hu), rfl⟩
        · rw [voteHandler_bad_index hfp hv' hlen] at hok
          cases hok
  · intro db db' pid uid now u hu hok
    cases hfp : findPost db.posts pid with
    | none =>
      rw [shareHandler_not_found hfp] at hok
      cases hok
    | some post =>
      rw [shareHandler_ok_known_user hfp hu] at hok
      injection hok with hdb
      subst hdb
      exact ⟨_, findUser_updateUser hu (by simpa using findUser_id hu), rfl⟩
  · intro db db' pid uid now u hu hok
    cases hfp : findPost db.posts pid with
    | none =>
      rw [viewHandler_not_found hfp] at hok
      cases hok
    | some post =>
      rw [viewHandler_ok_known_user hfp hu] at hok
      injection hok with hdb
      subst hdb
      exact ⟨_, findUser_updateUser hu (by simpa using findUser_id hu), rfl⟩
  · intro db db' pid uid now post u hfp hu hin hok
    rw [likeHandler_like_known_user hfp hin hu] at hok
    injection hok with hdb
    subst hdb
    exact ⟨_, findUser_updateUser hu (by simpa using findUser_id hu), rfl⟩
  · intro db db' pid uid now post hfp hin hok
    rw [likeHandler_unlike hfp hin] at hok
    injection hok with hdb
    subst hdb
    rfl

/-- Witness for C9: the successful vote by `alice` appends exactly the one
`vote` interaction to her log. -/
theorem claim_C9_interaction_append_witness :
    findUser sampleDB.users "alice" = some alice ∧
      voteHandler sampleDB 1 0 "alice" 5 = .ok dbAfterVote ∧
      ∃ u', findUser dbAfterVote.users "alice" = some u' ∧
        u'.interactions = alice.interactions ++ [⟨1, .vote, 5⟩] :=
  ⟨by decide, by rfl,
    claim_C9_interaction_append.1 sampleDB dbAfterVote 1 0 "alice" 5 alice
      (by decide) (by rfl)⟩

/-- C10: a vote, share or view whose acting identifier has no user record
still succeeds and mutates the post's counters, while the users collection
is returned unchanged — no interaction is recorded and no interests are
updated for that identifier. -/
theorem claim_C10_unknown_actor_frame :
    (∀ (db : DB) (pid i : ℕ) (uid : String) (now : ℚ) (post : Post)
        (h : i < post.options.length),
      findUser db.users uid = none →
      findPost db.posts pid = some post →
      (post.options.any fun o => o.voters.contains uid) = false →
      voteHandler db pid i uid now = .ok
        ⟨updatePost db.posts pid
          { post with
            options := post.options.set i
              (let o := post.options.get ⟨i, h⟩
               { o with votes := o.votes + 1, voters := o.voters ++ [uid] }),
            totalVotes := post.totalVotes + 1 },
          db.users⟩)
    ∧ (∀ (db : DB) (pid : ℕ) (uid : String) (now : ℚ) (post : Post),
      findUser db.users uid = none →
      findPost db.posts pid = some post →
      shareHandler db pid (some uid) now = .ok
        ⟨updatePost db.posts pid { post with shares := post.shares + 1 },
          db.users⟩)
    ∧ (∀ (db : DB) (pid : ℕ) (uid : String) (now : ℚ) (post : Post),
      findUser db.users uid = none →
      findPost db.posts pid = some post →
      viewHandler db pid (some uid) now = .ok
        ⟨updatePost db.posts pid { post with views := post.views + 1 },
          db.users⟩) := by
  refine ⟨?_, ?_, ?_⟩
  · intro db pid i uid now post h hfu hfp hv
    exact voteHandler_ok_unknown_user hfp hv h hfu
  · intro db pid uid now post hfu hfp
    exact shareHandler_ok_unknown_user hfp hfu
  · intro db pid uid now post hfu hfp
    exact viewHandler_ok_unknown_user hfp hfu

/-- Witness for C10: the unknown identifier `ghost` votes on post 1: the
request succeeds, the option and `totalVotes` are incremented, and the
users collection is unchanged. -/
theorem claim_C10_unknown_actor_frame_witness :
    findUser sampleDB.users "ghost" = none ∧
      findPost sampleDB.posts 1 = some post1 ∧
      (post1.options.any fun o => o.voters.contains "ghost") = false ∧
      voteHandler sampleDB 1 0 "ghost" 9 = .ok
        ⟨updatePost sampleDB.posts 1
          { post1 with
            options := post1.options.set 0
              (let o := post1.options.get ⟨0, by decide⟩
               { o with votes := o.votes + 1, voters := o.voters ++ ["ghost"] }),
            totalVotes := post1.totalVotes + 1 },
          sampleDB.users⟩ :=
  ⟨by decide, by decide, by decide,
    claim_C10_unknown_actor_frame.1 sampleDB 1 0 "ghost" 9 post1 (by decide)
      (by decide) (by decide) (by decide)⟩

end VotingApp

